import Mathlib

/-!
Shallow embedding of `main.go` of inkel/ghunwatch: a terminal UI that lists
the authenticated user's watched GitHub repositories, lets the user mark rows,
and bulk-unwatches the marked subscriptions.

The remote GitHub client is modelled as oracles: a paginated listing oracle
`c : Nat → Nat → PageResult` (arguments: the `opts.Page` cursor passed in the
request and `opts.PerPage`) and a deletion oracle
`del : String → String → Option goError` (`some e` means the delete call for
(org, repo) failed with cause `e`, `none` means it succeeded).

Go pointer dereference of a possibly-nil pointer is modelled with `Option`
(`none` = the dereference would panic); Go's wrapped errors
(`fmt.Errorf("...: %w", err)`) are modelled structurally by the `goError`
inductive so that "wraps the underlying cause" is a provable statement.
-/

/-- `github.User`: only the field the program reads. `Login` is a `*string`
in Go; `none` models a nil pointer. -/
structure userRec where
  login : Option String
deriving DecidableEq, Repr

/-- `github.Repository`: only the fields the program reads. `Owner` is a
`*github.User` and `Name` a `*string`; `none` models nil. -/
structure repoRec where
  owner : Option userRec
  name : Option String
deriving DecidableEq, Repr

/-- `type sub struct { org, repo string }` from main.go. -/
structure sub where
  org : String
  repo : String
deriving DecidableEq, Repr

/-- Go `error` values as the program builds them.  `raw` is an opaque error
from the HTTP client; `fetchPage p cause` models
`fmt.Errorf("fetching page %d of watched repos: %w", opts.Page, err)`;
`unwatchSub o r cause` models `fmt.Errorf("unwatching %s/%s: %w", ...)`. -/
inductive goError where
  | raw (msg : String)
  | fetchPage (pageNum : Nat) (cause : goError)
  | unwatchSub (org repo : String) (cause : goError)
deriving DecidableEq, Repr

/-- The string `err.Error()` would render to (what `%v`/`%w` chains print). -/
def goErrorMsg : goError → String
  | .raw s => s
  | .fetchPage p cause => "fetching page " ++ toString p ++ " of watched repos: " ++ goErrorMsg cause
  | .unwatchSub o r cause => "unwatching " ++ o ++ "/" ++ r ++ ": " ++ goErrorMsg cause

/-- `fmt.Sprintf("%v", err)` where `err` may be a nil `error`. -/
def errToString : Option goError → String
  | none => "<nil>"
  | some e => goErrorMsg e

/-- One `github.Response` page of `ListWatched`: the repository records of the
page plus the pagination fields the program reads (`NextPage`, `LastPage`).
`LastPage` is only used in the source as a capacity hint for `make`, which has
no value-level effect. -/
structure pageResp where
  repos : List repoRec
  nextPage : Nat
  lastPage : Nat
deriving Repr

/-- Result of one `ListWatched` call: either an error or a page. -/
def PageResult := Except goError pageResp

/-- `sub{*r.Owner.Login, *r.Name}`: three unguarded nil-pointer dereferences;
`none` models the Go panic. -/
def mkSub (r : repoRec) : Option sub :=
  match r.owner with
  | none => none
  | some u =>
    match u.login with
    | none => none
    | some login =>
      match r.name with
      | none => none
      | some name => some ⟨login, name⟩

/-- The inner `for _, r := range repos` append loop of `getSubs`, building one
`sub` per record in order; `none` if any record would panic. -/
def buildSubs (rs : List repoRec) : Option (List sub) :=
  rs.mapM mkSub

/-- Go `<` on strings: bytewise lexicographic comparison of the UTF-8
encodings, which coincides with lexicographic comparison of the code-point
sequences (UTF-8 encoding is order-preserving).  Lean's `String.lt` is the
same order, but its decision procedure `String.ltb` does not reduce in the
kernel, so we compare the character lists directly; `strLt_iff` below bridges
to the `String` order. -/
def strLt (a b : String) : Bool := decide (a.data < b.data)

/-- The `sort.Slice` comparator of `getSubs`, verbatim from the source:
`if a.org == b.org { return a.repo < b.repo }; return a.org < b.org`. -/
def subLess (a b : sub) : Bool :=
  if a.org == b.org then strLt a.repo b.repo else strLt a.org b.org

/-- The non-strict order induced by the comparator (`a ≤ b` iff `¬ b < a`);
`sort.Slice` establishes exactly this order on the result. -/
def subLe (a b : sub) : Bool := !subLess b a

/-- The order `sort.Slice` establishes, as a decidable relation. -/
def subLeP (a b : sub) : Prop := subLe a b = true

instance subLeP.decRel : DecidableRel subLeP := fun a b =>
  instDecidableEqBool (subLe a b) true

/-- `sort.Slice(subs, less)`: modelled as an insertion sort with the induced
total order.  Since `subLe` is total, transitive and antisymmetric (proved
below), every comparison sort produces this same unique sorted permutation,
so this is faithful to the source's pattern-defeating quicksort. -/
def sortSubs (l : List sub) : List sub :=
  l.insertionSort subLeP

/-- Observable outcomes of `getSubs`: a normal Go return `(subs, err)`,
a nil-pointer panic, or non-termination of the pagination loop (the fuel
parameter of the embedding ran out). -/
inductive FetchOut where
  | ret (subs : List sub) (err : Option goError)
  | panicked
  | diverged
deriving DecidableEq, Repr

/-- The pagination loop of `getSubs`, fuelled.  `pageArg` is `opts.Page`,
which starts at its Go zero value 0 (the omitted value, which the remote
interprets as the first page); every request carries `opts.PerPage = 100`.
On a request error the source returns `nil, fmt.Errorf(...)` — the
accumulated subs are discarded.  The loop exits when `res.NextPage == 0`,
else continues at `opts.Page = res.NextPage`. -/
def getSubsLoop (c : Nat → Nat → PageResult) : Nat → Nat → List sub → FetchOut
  | 0, _, _ => .diverged
  | fuel+1, pageArg, subs =>
    match c pageArg 100 with
    | .error e => .ret [] (some (.fetchPage pageArg e))
    | .ok pg =>
      match buildSubs pg.repos with
      | none => .panicked
      | some ns =>
        if pg.nextPage = 0 then .ret (subs ++ ns) none
        else getSubsLoop c fuel pg.nextPage (subs ++ ns)

/-- `getSubs`: run the pagination loop from cursor 0 with empty accumulator,
then `sort.Slice` the collection on success. -/
def getSubs (c : Nat → Nat → PageResult) (fuel : Nat) : FetchOut :=
  match getSubsLoop c fuel 0 [] with
  | .ret subs none => .ret (sortSubs subs) none
  | out => out

/-- Ghost trace of the `(opts.Page, opts.PerPage)` pairs of the `ListWatched`
requests the loop issues, mirroring `getSubsLoop`'s recursion exactly (the
failing request, if any, is recorded too — it was issued). -/
def reqTrace (c : Nat → Nat → PageResult) : Nat → Nat → List (Nat × Nat)
  | 0, _ => []
  | fuel+1, pageArg =>
    (pageArg, 100) ::
      match c pageArg 100 with
      | .error _ => []
      | .ok pg =>
        match buildSubs pg.repos with
        | none => []
        | some _ =>
          if pg.nextPage = 0 then [] else reqTrace c fuel pg.nextPage

/-- Ghost mirror of the loop computing the concatenation of the built subs
of all visited pages, in arrival order; `some` exactly when the run reaches
the normal loop exit. -/
def rawSubs (c : Nat → Nat → PageResult) : Nat → Nat → Option (List sub)
  | 0, _ => none
  | fuel+1, pageArg =>
    match c pageArg 100 with
    | .error _ => none
    | .ok pg =>
      match buildSubs pg.repos with
      | none => none
      | some ns =>
        if pg.nextPage = 0 then some ns
        else (rawSubs c fuel pg.nextPage).map (fun rest => ns ++ rest)

/- ## The table widget (external collaborator) and the session model -/

def colSub : String := "sub"
def colOrg : String := "org"
def colRepo : String := "repo"

/-- A value stored in a `table.RowData` map (`map[string]interface{}` in Go):
either a `sub` (under the hidden `colSub` column) or a display string. -/
inductive cellValue where
  | vSub (s : sub)
  | vStr (s : String)
deriving DecidableEq, Repr

/-- `table.RowData`, modelled as an association list keyed by column name. -/
abbrev RowData := List (String × cellValue)

/-- The Go type assertion `v.(sub)`; `none` models the panic on a missing key
(nil interface) or a value of another type. -/
def asSub : cellValue → Option sub
  | .vSub s => some s
  | .vStr _ => none

/-- A table row: its data map and its selection (mark) flag.
`table.NewRow` creates rows unselected. -/
structure Row where
  data : RowData
  selected : Bool
deriving DecidableEq, Repr

/-- The row built for a subscription in the `subsLoadedMsg` branch of
`Update`: `table.NewRow(table.RowData{colSub: s, colOrg: s.org, colRepo: s.repo})`. -/
def mkRow (s : sub) : Row :=
  ⟨[(colSub, .vSub s), (colOrg, .vStr s.org), (colRepo, .vStr s.repo)], false⟩

/-- `r.Data[colSub].(sub)`: look the hidden column up and type-assert. -/
def rowSub (r : Row) : Option sub :=
  (List.lookup colSub r.data).bind asSub

/-- Modelled external collaborator (evertras bubble-table): the state the
program observes — rows with selection flags, a highlight cursor, focus, and
the sizing set on resize. -/
structure TableState where
  rows : List Row
  cursor : Nat
  focused : Bool
  targetWidth : Nat
  pageSize : Int
deriving DecidableEq, Repr

/-- `m.table.SelectedRows()`: the rows whose mark flag is set. -/
def selectedRows (t : TableState) : List Row :=
  t.rows.filter (·.selected)

/-- The table built by `newModel`: no rows, selectable, not yet focused. -/
def initTable : TableState :=
  { rows := [], cursor := 0, focused := false, targetWidth := 0, pageSize := 0 }

structure keyBinding where
  keys : List String
deriving DecidableEq, Repr

/-- `key.Matches`: the pressed key is one of the binding's keys. -/
def keyMatches (k : String) (b : keyBinding) : Bool :=
  b.keys.contains k

structure keyMap where
  Quit : keyBinding
  Mark : keyBinding
  Exec : keyBinding

/-- The `km` package variable: Mark = space, Quit = "q", Exec = "x". -/
def km : keyMap :=
  { Quit := ⟨["q"]⟩, Mark := ⟨[" "]⟩, Exec := ⟨["x"]⟩ }

/-- The session states, in the source's `iota` order (`stateLoading` is the
zero value an un-initialised `model` starts in). -/
inductive state where
  | stateLoading
  | stateError
  | stateLoaded
  | stateUnwatching
deriving DecidableEq, Repr

/-- The bubbletea model of main.go.  The spinner is reduced to its frame
counter; the `done` channel and the `gh` client are not value-level state
(the client oracles are passed to `update` explicitly). -/
structure model where
  table : TableState
  spinner : Nat
  err : Option goError
  state : state
deriving DecidableEq, Repr

/-- `newModel`: fresh table, fresh spinner, nil error, zero-value state
(`stateLoading`). -/
def initModel : model :=
  { table := initTable, spinner := 0, err := none, state := .stateLoading }

/-- The closed set of `tea.Msg` variants the program can receive. -/
inductive Msg where
  | errMsg (e : goError)
  | keyMsg (k : String)
  | resizeMsg (width height : Nat)
  | spinTickMsg
  | subsLoadedMsg (subs : List sub) (err : Option goError)
deriving DecidableEq, Repr

/-- Toggle the mark flag of the row at index `i` (no-op when out of range). -/
def toggleAt (rows : List Row) (i : Nat) : List Row :=
  match rows.get? i with
  | none => rows
  | some r => rows.set i { r with selected := !r.selected }

/-- Modelled external collaborator (bubble-table `Update`): when focused,
space toggles the highlighted row's mark and the navigation keys move the
highlight; row *data* is never changed, only flags and the cursor.  All
other messages leave the widget state unchanged. -/
def tableUpdate (msg : Msg) (t : TableState) : TableState :=
  match msg with
  | .keyMsg k =>
    if !t.focused then t
    else if keyMatches k km.Mark then { t with rows := toggleAt t.rows t.cursor }
    else if k = "down" then { t with cursor := min (t.cursor + 1) (t.rows.length - 1) }
    else if k = "up" then { t with cursor := t.cursor - 1 }
    else t
  | _ => t

/-- The `tea.Cmd` values the program returns from `Init`/`Update`. -/
inductive Cmd where
  | cnone
  | quit
  | enterAltScreen
  | spinTick
  | emitErr (e : goError)
  | loadSubs
deriving DecidableEq, Repr

/-- `Init`: `tea.Batch(tea.EnterAltScreen, m.spinner.Tick, m.loadSubs)`. -/
def initCmds : List Cmd :=
  [.enterAltScreen, .spinTick, .loadSubs]

/-- `m.unwatch(subs)`.  NOTE (faithful to the source): the delete calls run
*inside this function* — that is, synchronously during the `Update` step that
calls it — and only the resulting command (an error message closure, or
`m.loadSubs` after all deletes succeed) is handed to the runtime. -/
def unwatch (del : String → String → Option goError) : List sub → Cmd
  | [] => .loadSubs
  | s :: rest =>
    match del s.org s.repo with
    | some e => .emitErr (.unwatchSub s.org s.repo e)
    | none => unwatch del rest

/-- Ghost trace of the delete calls `unwatch` issues, in order (the failing
call, if any, is the last one recorded — it was issued and failed). -/
def unwatchCalls (del : String → String → Option goError) : List sub → List sub
  | [] => []
  | s :: rest =>
    s ::
      match del s.org s.repo with
      | some _ => []
      | none => unwatchCalls del rest

/-- Ghost trace of the deletions that actually took effect (calls that
returned success), in order. -/
def unwatchDeleted (del : String → String → Option goError) : List sub → List sub
  | [] => []
  | s :: rest =>
    match del s.org s.repo with
    | some _ => []
    | none => s :: unwatchDeleted del rest

/-- `Update`, the session state machine step.  `none` models a Go panic (the
only panic site reachable here is the `r.Data[colSub].(sub)` assertion in the
Exec branch).  Faithful details: the Exec branch does *not* check the current
state; the `subsLoadedMsg` error branch sets `stateError` but does not write
`msg.err` into `m.err`; branches without an early `return` fall through to
`m.table.Update(msg)`. -/
def update (del : String → String → Option goError) (msg : Msg) (m : model) :
    Option (model × Cmd) :=
  match msg with
  | .errMsg e => some ({ m with err := some e, state := .stateError }, .cnone)
  | .keyMsg k =>
    if keyMatches k km.Quit then some (m, .quit)
    else if keyMatches k km.Exec then
      match (selectedRows m.table).mapM rowSub with
      | none => none
      | some subs => some ({ m with state := .stateUnwatching }, unwatch del subs)
    else some ({ m with table := tableUpdate msg m.table }, .cnone)
  | .resizeMsg w h =>
    let hh : Int := 1
    let t := { m.table with targetWidth := w, pageSize := (h : Int) - 6 - hh }
    some ({ m with table := tableUpdate msg t }, .cnone)
  | .spinTickMsg => some ({ m with spinner := m.spinner + 1 }, .spinTick)
  | .subsLoadedMsg subs err =>
    match err with
    | some _ => some ({ m with state := .stateError }, .cnone)
    | none =>
      let rows := subs.map mkRow
      let t := { m.table with rows := rows, focused := true }
      some ({ m with table := tableUpdate msg t, state := .stateLoaded }, .cnone)

/-- Ghost trace of the network calls the `Update` step itself performs
synchronously, before returning: the delete calls made inside `m.unwatch`.
No other branch of `Update` touches the network. -/
def updateSyncCalls (del : String → String → Option goError) (msg : Msg) (m : model) :
    List sub :=
  match msg with
  | .keyMsg k =>
    if keyMatches k km.Quit then []
    else if keyMatches k km.Exec then
      match (selectedRows m.table).mapM rowSub with
      | none => []
      | some subs => unwatchCalls del subs
    else []
  | _ => []

/-- Number of `getSubs` invocations executing a command performs: only
`m.loadSubs` fetches. -/
def cmdFetchCalls : Cmd → Nat
  | .loadSubs => 1
  | _ => 0

/-- Number of delete calls executing a command performs: none — every delete
the program ever issues happens inside `Update` (see `unwatch`). -/
def cmdDeleteCalls : Cmd → Nat
  | _ => 0

/-- `m.loadSubs` run by the runtime: it calls `getSubs` once and returns the
`subsLoadedMsg` carrying its result (`none` if the fetch panicked or
diverged, in which case no message is ever delivered). -/
def loadSubsMsg (fo : FetchOut) : Option Msg :=
  match fo with
  | .ret subs err => some (.subsLoadedMsg subs err)
  | _ => none

/-- The completion messages the runtime delivers back to the loop after
executing a command, given the fetch outcome `fo` a `loadSubs` execution
would observe. -/
def cmdMsgs (fo : FetchOut) : Cmd → List Msg
  | .cnone => []
  | .quit => []
  | .enterAltScreen => []
  | .spinTick => [.spinTickMsg]
  | .emitErr e => [.errMsg e]
  | .loadSubs => (loadSubsMsg fo).toList

/- ## Rendering -/

/-- Modelled external collaborator (bubbles spinner): the default frame set;
only its purity in the frame counter matters to the claims. -/
def spinnerView (n : Nat) : String :=
  (["|", "/", "-", "\\"]).getD (n % 4) "|"

/-- Modelled external collaborator (bubbles help): the short help line for
`km.ShortHelp()` = Mark, Exec, Quit. -/
def helpView : String :=
  "space toggle mark • x unwatch • q quit"

/-- Modelled external collaborator (bubble-table `View`): renders the display
cells of each row. -/
def rowView (r : Row) : String :=
  (match List.lookup colOrg r.data with | some (.vStr s) => s | _ => "") ++ " " ++
    (match List.lookup colRepo r.data with | some (.vStr s) => s | _ => "")

def tableView (t : TableState) : String :=
  String.intercalate "\n" (t.rows.map rowView)

/-- `View`, by state: error renders only `fmt.Sprintf("Error: %v\n", m.err)`;
loaded renders the table joined with the help line; loading/unwatching render
their spinner lines. -/
def view (m : model) : String :=
  match m.state with
  | .stateError => "Error: " ++ errToString m.err ++ "\n"
  | .stateLoaded => tableView m.table ++ "\n" ++ helpView
  | .stateLoading => "Loading subscriptions " ++ spinnerView m.spinner ++ "\n"
  | .stateUnwatching => "Unwatching marked subscriptions " ++ spinnerView m.spinner ++ "\n"

/- ## Process entry -/

/-- Outcome of `realMain`: either the startup error returned before the UI
starts (no client call is made on this path), or the interactive program is
started with the given token. -/
inductive realMainResult where
  | startupErr (msg : String)
  | programStarted (token : String)
deriving DecidableEq, Repr

/-- `realMain`: `os.Getenv("GITHUB_TOKEN")` returns `""` when the variable is
absent (`env = none`); an empty token is a fatal startup error returned
before the client is used or the bubbletea program is started. -/
def realMain (env : Option String) : realMainResult :=
  let token := env.getD ""
  if token = "" then .startupErr "must set GITHUB_TOKEN"
  else .programStarted token

/-- `main`: on a `realMain` error, print it to stderr and `os.Exit(1)`.
Returns (exit code, stderr lines, whether the interactive loop started). -/
def mainGo (env : Option String) : Nat × List String × Bool :=
  match realMain env with
  | .startupErr msg => (1, [msg], false)
  | .programStarted _ => (0, [], true)

/- ## Reachability of session states -/

/-- Session states reachable from `newModel` under any sequence of messages
and any client behaviour (steps that would panic produce no successor). -/
inductive Reachable : model → Prop where
  | init : Reachable initModel
  | step (del : String → String → Option goError) (msg : Msg) (m m' : model) (c : Cmd) :
      Reachable m → update del msg m = some (m', c) → Reachable m'

/- ## Properties of the sort comparator -/

lemma strLt_iff (a b : String) : strLt a b = true ↔ a < b := by
  rw [strLt, decide_eq_true_iff]
  exact ⟨fun h => String.lt_iff_toList_lt.mpr h, fun h => String.lt_iff_toList_lt.mp h⟩

lemma subLe_iff (a b : sub) :
    subLe a b = true ↔ a.org < b.org ∨ (a.org = b.org ∧ a.repo ≤ b.repo) := by
  obtain ⟨x, r⟩ := a
  obtain ⟨y, s⟩ := b
  simp only [subLe, subLess]
  by_cases h : y = x
  · subst h
    simp only [beq_self_eq_true, if_true, Bool.not_eq_true', Bool.eq_false_iff, ne_eq,
      strLt_iff, not_lt, lt_self_iff_false, false_or, true_and]
  · simp only [beq_iff_eq, if_neg h, Bool.not_eq_true', ← strLt_iff, Bool.not_eq_true]
    rw [Bool.eq_false_iff]
    simp only [ne_eq, strLt_iff, not_lt]
    constructor
    · intro hle
      exact Or.inl (lt_of_le_of_ne hle (Ne.symm h))
    · rintro (hlt | ⟨heq, _⟩)
      · exact le_of_lt hlt
      · exact absurd heq.symm h

lemma subLe_trans (a b c : sub) : subLe a b → subLe b c → subLe a c := by
  simp only [subLe_iff]
  rintro (h₁ | ⟨e₁, r₁⟩) (h₂ | ⟨e₂, r₂⟩)
  · exact Or.inl (lt_trans h₁ h₂)
  · exact Or.inl (e₂ ▸ h₁)
  · exact Or.inl (e₁ ▸ h₂)
  · exact Or.inr ⟨e₁.trans e₂, le_trans r₁ r₂⟩

lemma subLe_total (a b : sub) : subLe a b || subLe b a := by
  rcases lt_trichotomy a.org b.org with h | h | h
  · simp [subLe_iff, h]
  · rcases le_total a.repo b.repo with hr | hr
    · simp [subLe_iff, h, hr]
    · simp [subLe_iff, h.symm, hr]
  · simp [subLe_iff, h]

lemma subLe_antisymm (a b : sub) (h₁ : subLe a b = true) (h₂ : subLe b a = true) : a = b := by
  rw [subLe_iff] at h₁ h₂
  obtain ⟨x, r⟩ := a
  obtain ⟨y, s⟩ := b
  rcases h₁ with h₁ | ⟨e₁, r₁⟩ <;> rcases h₂ with h₂ | ⟨e₂, r₂⟩
  · exact absurd h₂ (not_lt.mpr (le_of_lt h₁))
  · exact absurd h₁ (e₂ ▸ lt_irrefl _)
  · exact absurd h₂ (e₁ ▸ lt_irrefl _)
  · simp only [sub.mk.injEq]
    exact ⟨e₁, le_antisymm r₁ r₂⟩

instance subLeP.total : IsTotal sub subLeP :=
  ⟨fun a b => by
    have h := subLe_total a b
    rcases Bool.or_eq_true_iff.mp h with h' | h'
    · exact Or.inl h'
    · exact Or.inr h'⟩

instance subLeP.trans : IsTrans sub subLeP :=
  ⟨fun a b c => subLe_trans a b c⟩

instance subLeP.antisymm : IsAntisymm sub subLeP :=
  ⟨subLe_antisymm⟩

lemma sortSubs_sorted (l : List sub) : (sortSubs l).Pairwise subLeP :=
  List.sorted_insertionSort subLeP l

lemma sortSubs_perm (l : List sub) : (sortSubs l).Perm l :=
  List.perm_insertionSort subLeP l

lemma sortSubs_eq_of_perm {l₁ l₂ : List sub} (h : l₁.Perm l₂) :
    sortSubs l₁ = sortSubs l₂ :=
  List.eq_of_perm_of_sorted
    ((sortSubs_perm l₁).trans (h.trans (sortSubs_perm l₂).symm))
    (sortSubs_sorted l₁) (sortSubs_sorted l₂)

/- ## Relating the pagination loop to its ghost mirrors -/

lemma getSubsLoop_ok (c : Nat → Nat → PageResult) :
    ∀ (fuel pageArg : Nat) (acc l : List sub),
      getSubsLoop c fuel pageArg acc = .ret l none →
      ∃ raw, rawSubs c fuel pageArg = some raw ∧ l = acc ++ raw := by
  intro fuel
  induction fuel with
  | zero =>
    intro pageArg acc l h
    simp [getSubsLoop] at h
  | succ n ih =>
    intro pageArg acc l h
    rw [getSubsLoop] at h
    split at h
    · simp at h
    · rename_i pg hc
      split at h
      · simp at h
      · rename_i ns hb
        split at h
        · rename_i hn
          simp only [FetchOut.ret.injEq] at h
          exact ⟨ns, by simp [rawSubs, hc, hb, hn], h.1.symm⟩
        · rename_i hn
          obtain ⟨raw, hr, hl⟩ := ih pg.nextPage (acc ++ ns) l h
          refine ⟨ns ++ raw, ?_, by simp [hl]⟩
          simp [rawSubs, hc, hb, hn, hr]

lemma getSubs_ok (c : Nat → Nat → PageResult) (fuel : Nat) (l : List sub)
    (h : getSubs c fuel = .ret l none) :
    ∃ raw, rawSubs c fuel 0 = some raw ∧ l = sortSubs raw := by
  unfold getSubs at h
  cases hl : getSubsLoop c fuel 0 [] with
  | ret subs err =>
    cases err with
    | none =>
      rw [hl] at h
      simp only [FetchOut.ret.injEq] at h
      obtain ⟨raw, hr, hsubs⟩ := getSubsLoop_ok c fuel 0 [] subs hl
      exact ⟨raw, hr, by simp only [List.nil_append] at hsubs; rw [← h.1, hsubs]⟩
    | some e => rw [hl] at h; simp at h
  | panicked => rw [hl] at h; simp at h
  | diverged => rw [hl] at h; simp at h

/- ## C1: the fetched snapshot -/

/-- C1: for every multi-page fetch that succeeds, the returned list contains
each (organization, repository) pair from the union of all pages exactly once
(given the upstream invariant that the pages of one account carry no
duplicate pair), is sorted ascending primarily by organization and
secondarily by repository (case-sensitive ordinal comparison, `subLe_iff`),
and does not depend on the order in which the pairs arrived: any successful
run whose pages deliver the same pairs in any order returns the same list. -/
theorem getSubs_ordered_unique (c : Nat → Nat → PageResult) (fuel : Nat)
    (l raw : List sub)
    (hok : getSubs c fuel = .ret l none)
    (hraw : rawSubs c fuel 0 = some raw)
    (hnd : raw.Nodup) :
    (∀ s : sub, l.count s = if s ∈ raw then 1 else 0) ∧
    l.Pairwise subLeP ∧
    ∀ (c' : Nat → Nat → PageResult) (fuel' : Nat) (l' raw' : List sub),
      getSubs c' fuel' = .ret l' none → rawSubs c' fuel' 0 = some raw' →
      raw'.Perm raw → l' = l := by
  obtain ⟨raw₀, hr₀, hl₀⟩ := getSubs_ok c fuel l hok
  rw [hraw, Option.some.injEq] at hr₀
  subst hr₀
  refine ⟨?_, ?_, ?_⟩
  · intro s
    rw [hl₀, (sortSubs_perm raw).count_eq]
    by_cases hs : s ∈ raw
    · rw [if_pos hs]
      exact List.count_eq_one_of_mem hnd hs
    · rw [if_neg hs]
      exact List.count_eq_zero_of_not_mem hs
  · rw [hl₀]
    exact sortSubs_sorted raw
  · intro c' fuel' l' raw' hok' hraw' hperm
    obtain ⟨raw₁, hr₁, hl₁⟩ := getSubs_ok c' fuel' l' hok'
    rw [hraw', Option.some.injEq] at hr₁
    subst hr₁
    rw [hl₀, hl₁]
    exact sortSubs_eq_of_perm hperm

/-- First page of the concrete two-page witness client (spec scenario pairs). -/
def pageA : pageResp :=
  ⟨[⟨some ⟨some "acme"⟩, some "widgets"⟩, ⟨some ⟨some "acme"⟩, some "gadgets"⟩], 2, 2⟩

/-- Second page of the concrete witness client. -/
def pageB : pageResp :=
  ⟨[⟨some ⟨some "zeta"⟩, some "tools"⟩], 0, 2⟩

/-- A concrete two-page client: cursor 0 serves `pageA` (next page 2), cursor
2 serves `pageB` (last). -/
def cW : Nat → Nat → PageResult := fun p _ =>
  if p = 0 then .ok pageA else if p = 2 then .ok pageB else .error (.raw "no such page")

/-- The same pairs arriving in a different order across differently shaped
pages. -/
def cW2 : Nat → Nat → PageResult := fun p _ =>
  if p = 0 then .ok ⟨[⟨some ⟨some "zeta"⟩, some "tools"⟩, ⟨some ⟨some "acme"⟩, some "gadgets"⟩], 7, 2⟩
  else if p = 7 then .ok ⟨[⟨some ⟨some "acme"⟩, some "widgets"⟩], 0, 2⟩
  else .error (.raw "no such page")

/-- The sorted snapshot of the witness run (the spec's scenario output). -/
def lW : List sub := [⟨"acme", "gadgets"⟩, ⟨"acme", "widgets"⟩, ⟨"zeta", "tools"⟩]

/-- The witness run's pairs in arrival order. -/
def rawW : List sub := [⟨"acme", "widgets"⟩, ⟨"acme", "gadgets"⟩, ⟨"zeta", "tools"⟩]

/-- Witness for C1 on the spec's scenario: a two-page fetch returning
widgets, gadgets, tools arrives out of order and is returned sorted; the
run of `cW2`, which delivers the same pairs in another arrival order,
returns the identical list. -/
theorem getSubs_ordered_unique_witness :
    lW.Pairwise subLeP ∧
    lW.count ⟨"acme", "gadgets"⟩ = (if (⟨"acme", "gadgets"⟩ : sub) ∈ rawW then 1 else 0) ∧
    getSubs cW2 2 = .ret lW none := by
  have h := getSubs_ordered_unique cW 3 lW rawW (by decide) (by decide) (by decide)
  refine ⟨h.2.1, h.1 _, ?_⟩
  have h2 := h.2.2 cW2 2 (sortSubs [⟨"zeta", "tools"⟩, ⟨"acme", "gadgets"⟩, ⟨"acme", "widgets"⟩])
    [⟨"zeta", "tools"⟩, ⟨"acme", "gadgets"⟩, ⟨"acme", "widgets"⟩] (by decide) (by decide) (by decide)
  rw [show getSubs cW2 2 = .ret (sortSubs [⟨"zeta", "tools"⟩, ⟨"acme", "gadgets"⟩, ⟨"acme", "widgets"⟩]) none from by decide, h2]

/- ## C4: pagination protocol and fail-fast fetch -/

lemma reqTrace_perPage (c : Nat → Nat → PageResult) :
    ∀ (fuel pageArg : Nat), ∀ q ∈ reqTrace c fuel pageArg, q.2 = 100 := by
  intro fuel
  induction fuel with
  | zero => intro pageArg q hq; simp [reqTrace] at hq
  | succ n ih =>
    intro pageArg q hq
    rw [reqTrace] at hq
    rcases List.mem_cons.mp hq with h | h
    · rw [h]
    · revert h
      split
      · intro h; simp at h
      · split
        · intro h; simp at h
        · split
          · intro h; simp at h
          · intro h; exact ih _ q h

lemma reqTrace_head (c : Nat → Nat → PageResult) (fuel pageArg : Nat) (h : 0 < fuel) :
    (reqTrace c fuel pageArg).head? = some (pageArg, 100) := by
  cases fuel with
  | zero => omega
  | succ n => rw [reqTrace]; rfl

lemma reqTrace_chain (c : Nat → Nat → PageResult) :
    ∀ (fuel pageArg : Nat),
      (reqTrace c fuel pageArg).Chain'
        (fun a b => ∃ pg, c a.1 100 = .ok pg ∧ pg.nextPage ≠ 0 ∧ b.1 = pg.nextPage) := by
  intro fuel
  induction fuel with
  | zero => intro pageArg; simp [reqTrace]
  | succ n ih =>
    intro pageArg
    rw [reqTrace, List.chain'_cons']
    constructor
    · intro b hb
      revert hb
      split
      · intro hb; simp at hb
      · rename_i pg hc
        split
        · intro hb; simp at hb
        · split
          · rename_i hn; intro hb; simp at hb
          · rename_i hn
            intro hb
            cases n with
            | zero => simp [reqTrace] at hb
            | succ m =>
              rw [reqTrace_head c (m+1) pg.nextPage (Nat.succ_pos m)] at hb
              cases hb
              exact ⟨pg, by assumption, hn, rfl⟩
    · split
      · simp
      · split
        · simp
        · split
          · simp
          · exact ih _

lemma getSubsLoop_err (c : Nat → Nat → PageResult) :
    ∀ (fuel pageArg : Nat) (acc l : List sub) (e : goError),
      getSubsLoop c fuel pageArg acc = .ret l (some e) →
      l = [] ∧ ∃ p cause pre, e = .fetchPage p cause ∧ c p 100 = .error cause ∧
        reqTrace c fuel pageArg = pre ++ [(p, 100)] := by
  intro fuel
  induction fuel with
  | zero => intro pageArg acc l e h; simp [getSubsLoop] at h
  | succ n ih =>
    intro pageArg acc l e h
    rw [getSubsLoop] at h
    split at h
    · rename_i e' hc
      simp only [FetchOut.ret.injEq, Option.some.injEq] at h
      refine ⟨h.1.symm, pageArg, e', [], h.2.symm, hc, ?_⟩
      simp [reqTrace, hc]
    · rename_i pg hc
      split at h
      · simp at h
      · rename_i ns hb
        split at h
        · rename_i hn; simp at h
        · rename_i hn
          obtain ⟨hl, p, cause, pre, he, hcp, htr⟩ := ih pg.nextPage (acc ++ ns) l e h
          refine ⟨hl, p, cause, (pageArg, 100) :: pre, he, hcp, ?_⟩
          simp [reqTrace, hc, hb, hn, htr]

/-- C4: every pagination run issues its first request with the initial
`opts.Page` cursor 0 (the omitted value, denoting the remote's first page)
and page size 100; every request carries page size 100; consecutive requests
exist only when the previous response supplied a non-zero next-page cursor,
and then target exactly that cursor (so the loop follows the cursor until it
is 0); and when the run returns an error, the returned list is empty (all
partial results discarded), and the error wraps the cause and names the
cursor of the failing request, which is the last request issued (abort with
no further requests). -/
theorem getSubs_pagination (c : Nat → Nat → PageResult) (fuel : Nat) (hf : 0 < fuel) :
    (reqTrace c fuel 0).head? = some (0, 100) ∧
    (∀ q ∈ reqTrace c fuel 0, q.2 = 100) ∧
    (reqTrace c fuel 0).Chain'
      (fun a b => ∃ pg, c a.1 100 = .ok pg ∧ pg.nextPage ≠ 0 ∧ b.1 = pg.nextPage) ∧
    ∀ (l : List sub) (e : goError), getSubs c fuel = .ret l (some e) →
      l = [] ∧ ∃ p cause pre, e = .fetchPage p cause ∧ c p 100 = .error cause ∧
        reqTrace c fuel 0 = pre ++ [(p, 100)] := by
  refine ⟨reqTrace_head c fuel 0 hf, reqTrace_perPage c fuel 0, reqTrace_chain c fuel 0, ?_⟩
  intro l e h
  unfold getSubs at h
  split at h
  · simp at h
  · exact getSubsLoop_err c fuel 0 [] l e (by rw [← h])

/-- A client whose second request (cursor 2) fails. -/
def cF : Nat → Nat → PageResult := fun p _ =>
  if p = 0 then .ok pageA else .error (.raw "boom")

/-- Witness for C4: on the failing client `cF` the hypotheses hold; the run
issues requests at cursors 0 then 2 and returns the empty list with the
wrapped error naming cursor 2. -/
theorem getSubs_pagination_witness :
    (reqTrace cF 3 0).head? = some (0, 100) ∧
    reqTrace cF 3 0 = [(0, 100), (2, 100)] ∧
    getSubs cF 3 = .ret [] (some (.fetchPage 2 (.raw "boom"))) :=
  ⟨(getSubs_pagination cF 3 (by decide)).1, by decide, by decide⟩

/- ## C2: fail-fast bulk unwatch -/

lemma unwatch_aux (del : String → String → Option goError) :
    ∀ (subs : List sub) (j : Nat) (s : sub) (e : goError),
      subs.get? j = some s →
      del s.org s.repo = some e →
      (∀ t ∈ subs.take j, del t.org t.repo = none) →
      unwatchCalls del subs = subs.take (j+1) ∧
      unwatchDeleted del subs = subs.take j ∧
      unwatch del subs = .emitErr (.unwatchSub s.org s.repo e) := by
  intro subs
  induction subs with
  | nil => intro j s e hj; simp at hj
  | cons a rest ih =>
    intro j s e hj hfail hok
    cases j with
    | zero =>
      simp only [List.get?_cons_zero, Option.some.injEq] at hj
      subst hj
      refine ⟨?_, ?_, ?_⟩ <;> simp [unwatchCalls, unwatchDeleted, unwatch, hfail]
    | succ m =>
      have ha : del a.org a.repo = none := hok a (by simp)
      have hok' : ∀ t ∈ rest.take m, del t.org t.repo = none := by
        intro t ht
        exact hok t (by simp [List.take_succ_cons]; exact Or.inr ht)
      obtain ⟨h1, h2, h3⟩ := ih m s e (by simpa using hj) hfail hok'
      refine ⟨?_, ?_, ?_⟩
      · simp [unwatchCalls, ha, h1, List.take_succ_cons]
      · simp [unwatchDeleted, ha, h2, List.take_succ_cons]
      · simp [unwatch, ha, h3]

/-- C2: if the k-th (1-indexed) delete call of a selection fails, the calls
issued are exactly the first k (the failing one last), the deletions that
took effect are exactly the first k−1, both in selection order, nothing from
position k on is ever deleted and nothing beyond position k is ever called,
and the returned command carries an error naming the k-th subscription's
(organization, repository) pair and structurally wrapping the cause. -/
theorem unwatch_failfast (del : String → String → Option goError)
    (subs : List sub) (k : Nat) (s : sub) (e : goError)
    (hk : 1 ≤ k)
    (hs : subs.get? (k-1) = some s)
    (hfail : del s.org s.repo = some e)
    (hok : ∀ t ∈ subs.take (k-1), del t.org t.repo = none) :
    unwatchCalls del subs = subs.take k ∧
    unwatchDeleted del subs = subs.take (k-1) ∧
    unwatch del subs = .emitErr (.unwatchSub s.org s.repo e) := by
  obtain ⟨h1, h2, h3⟩ := unwatch_aux del subs (k-1) s e hs hfail hok
  refine ⟨?_, h2, h3⟩
  rw [h1]
  congr 1
  omega

/-- A concrete deletion oracle failing exactly on acme/widgets. -/
def delW : String → String → Option goError := fun o r =>
  if o = "acme" && r = "widgets" then some (.raw "boom") else none

/-- Witness for C2 at k = 2 over a three-element selection: the first call
succeeds, the second fails, the third is never issued; the command wraps the
failing pair. -/
theorem unwatch_failfast_witness :
    unwatchCalls delW lW = lW.take 2 ∧
    unwatchDeleted delW lW = lW.take 1 ∧
    unwatch delW lW = .emitErr (.unwatchSub "acme" "widgets" (.raw "boom")) :=
  unwatch_failfast delW lW 2 ⟨"acme", "widgets"⟩ (.raw "boom")
    (by decide) (by decide) (by decide) (by decide)

/- ## C8: missing credential -/

/-- C8: when the credential is absent from the environment, `realMain`
returns the startup error before the client is used or the program started
(so no network call is attempted and the interactive loop never runs), and
`main` prints exactly that error to stderr and exits with code 1. -/
theorem missing_token_exits :
    realMain none = .startupErr "must set GITHUB_TOKEN" ∧
    mainGo none = (1, ["must set GITHUB_TOKEN"], false) := by
  constructor <;> rfl

/- ## C3: fetch error while loading (code bug: error not recorded) -/

/-- C3 evidence: a fetch completing with an error in the loading state
transitions the session to the error state but does *not* record the error —
`m.err` is written only by the `case error:` branch, which a fetch error
never reaches because it arrives wrapped inside `subsLoadedMsg` — so the
error view renders the nil error as "Error: <nil>" rather than the last
error message.  (The error state's view does render the error line and
nothing else, as the claim says; the recording step is the code bug.) -/
theorem fetch_error_not_recorded :
    update (fun _ _ => none) (.subsLoadedMsg [] (some (.raw "boom"))) initModel =
      some ({ initModel with state := .stateError }, .cnone) ∧
    ({ initModel with state := .stateError } : model).err = none ∧
    view { initModel with state := .stateError } = "Error: <nil>\n" ∧
    goErrorMsg (.raw "boom") = "boom" := by
  refine ⟨by decide, by decide, by decide, by decide⟩

/- ## C5: zero-selection execute -/

/-- C5: invoking execute with zero rows selected issues zero delete calls
(the update step's synchronous call trace is empty), moves the session to
unwatching returning the `loadSubs` command, whose execution performs exactly
one fetch call and no deletions and delivers exactly the one refresh
message; delivering that successful refresh puts the session in the loaded
state. -/
theorem zero_selection_exec (del : String → String → Option goError)
    (m : model) (k : String)
    (hx : keyMatches k km.Exec = true) (hq : keyMatches k km.Quit = false)
    (hsel : selectedRows m.table = [])
    (c : Nat → Nat → PageResult) (fuel : Nat) (fetched : List sub)
    (hfetch : getSubs c fuel = .ret fetched none) :
    updateSyncCalls del (.keyMsg k) m = [] ∧
    update del (.keyMsg k) m = some ({ m with state := .stateUnwatching }, .loadSubs) ∧
    cmdFetchCalls .loadSubs = 1 ∧ cmdDeleteCalls .loadSubs = 0 ∧
    cmdMsgs (getSubs c fuel) .loadSubs = [.subsLoadedMsg fetched none] ∧
    ∃ m₂, update del (.subsLoadedMsg fetched none) { m with state := .stateUnwatching } =
        some (m₂, .cnone) ∧ m₂.state = .stateLoaded := by
  refine ⟨?_, ?_, rfl, rfl, ?_, ?_⟩
  · simp [updateSyncCalls, hx, hq, hsel, unwatchCalls, List.mapM.loop]
  · simp [update, hx, hq, hsel, unwatch, List.mapM.loop]
  · rw [hfetch]; rfl
  · refine ⟨_, rfl, rfl⟩

/-- Witness for C5: pressing "x" on the initial (nothing-selected) table
issues no delete call, returns the `loadSubs` command, and the refresh
delivers the loaded snapshot. -/
theorem zero_selection_exec_witness :
    updateSyncCalls (fun _ _ => none) (.keyMsg "x") initModel = [] ∧
    update (fun _ _ => none) (.keyMsg "x") initModel =
      some ({ initModel with state := .stateUnwatching }, .loadSubs) ∧
    cmdMsgs (getSubs cW 3) .loadSubs = [.subsLoadedMsg lW none] := by
  have h := zero_selection_exec (fun _ _ => none) initModel "x" (by decide) (by decide)
    (by decide) cW 3 lW (by decide)
  exact ⟨h.1, h.2.1, h.2.2.2.2.1⟩

/- ## C6: the error state and key presses -/

/-- The session state reached when the initial fetch fails: error state,
empty unfocused table, nil recorded error. -/
def errModel : model :=
  { table := initTable, spinner := 0, err := none, state := .stateError }

/-- C6 counterexample: after a fetch error puts the session in the error
state, pressing the execute key "x" *does* trigger new work from the UI —
the Exec branch does not check the state, so the session moves to unwatching
and the `loadSubs` command is dispatched, issuing a fresh fetch (a retry). -/
theorem error_state_exec_retries :
    update (fun _ _ => none) (.subsLoadedMsg [] (some (.raw "boom"))) initModel =
      some (errModel, .cnone) ∧
    errModel.state = .stateError ∧
    update (fun _ _ => none) (.keyMsg "x") errModel =
      some ({ errModel with state := .stateUnwatching }, .loadSubs) ∧
    cmdFetchCalls .loadSubs = 1 := by
  refine ⟨by decide, rfl, by decide, rfl⟩

/-- C6 (amended): in the error state, no key press other than the execute
binding issues any fetch or deletion — quit only quits and every other key
reaches only the table widget — but the execute binding still triggers the
full unwatch-and-refresh (deleting any marked rows and issuing a fetch), so
the UI can leave the error state without restarting the process; there is
merely no dedicated retry binding. -/
theorem error_state_keys (del : String → String → Option goError) (m : model) (k : String)
    (_hmst : m.state = .stateError) (hx : keyMatches k km.Exec = false) :
    updateSyncCalls del (.keyMsg k) m = [] ∧
    ∀ m' c, update del (.keyMsg k) m = some (m', c) →
      cmdFetchCalls c = 0 ∧ cmdDeleteCalls c = 0 := by
  constructor
  · simp [updateSyncCalls, hx]
  · intro m' c h
    by_cases hq : keyMatches k km.Quit = true
    · have hu : update del (.keyMsg k) m = some (m, .quit) := by simp [update, hq]
      rw [hu] at h
      injection h with h
      injection h with h₁ h₂
      rw [← h₂]
      exact ⟨rfl, rfl⟩
    · have hq' : keyMatches k km.Quit = false := by simpa using hq
      have hu : update del (.keyMsg k) m =
          some ({ m with table := tableUpdate (.keyMsg k) m.table }, .cnone) := by
        simp [update, hq', hx]
      rw [hu] at h
      injection h with h
      injection h with h₁ h₂
      rw [← h₂]
      exact ⟨rfl, rfl⟩

/-- Witness for C6's amended statement: pressing space in the error state
performs no synchronous network call and dispatches no fetch or deletion. -/
theorem error_state_keys_witness :
    updateSyncCalls (fun _ _ => none) (.keyMsg " ") errModel = [] ∧
    cmdFetchCalls .cnone = 0 ∧ cmdDeleteCalls .cnone = 0 := by
  have h := error_state_keys (fun _ _ => none) errModel " " rfl (by decide)
  exact ⟨h.1, h.2 errModel .cnone (by decide)⟩

/- ## C7: where the network work actually runs -/

/-- The loaded session state with one row, built by the program from the
snapshot `[acme/widgets]` before any toggle. -/
def loadedModel0 : model :=
  { table := { rows := [mkRow ⟨"acme", "widgets"⟩], cursor := 0, focused := true,
               targetWidth := 0, pageSize := 0 },
    spinner := 0, err := none, state := .stateLoaded }

/-- The same state after the user toggles the row's mark. -/
def loadedModel : model :=
  { table := { rows := [{ data := (mkRow ⟨"acme", "widgets"⟩).data, selected := true }],
               cursor := 0, focused := true, targetWidth := 0, pageSize := 0 },
    spinner := 0, err := none, state := .stateLoaded }

/-- C7 counterexample: in a reachable loaded state with one marked row,
pressing execute makes the update step itself perform the delete call
synchronously (the synchronous-network-call trace of the step is nonempty),
refuting that the event loop's update step never performs network I/O
synchronously; the deletions are not part of the dispatched command. -/
theorem update_performs_sync_deletes :
    update (fun _ _ => none) (.subsLoadedMsg [⟨"acme", "widgets"⟩] none) initModel =
      some (loadedModel0, .cnone) ∧
    update (fun _ _ => none) (.keyMsg " ") loadedModel0 = some (loadedModel, .cnone) ∧
    updateSyncCalls (fun _ _ => none) (.keyMsg "x") loadedModel = [⟨"acme", "widgets"⟩] ∧
    update (fun _ _ => none) (.keyMsg "x") loadedModel =
      some ({ loadedModel with state := .stateUnwatching }, .loadSubs) := by
  refine ⟨by decide, by decide, by decide, by decide⟩

lemma unwatch_cases (del : String → String → Option goError) (subs : List sub) :
    (∃ e, unwatch del subs = .emitErr e) ∨ unwatch del subs = .loadSubs := by
  induction subs with
  | nil => exact Or.inr rfl
  | cons a rest ih =>
    rw [unwatch]
    cases del a.org a.repo with
    | some e => exact Or.inl ⟨.unwatchSub a.org a.repo e, rfl⟩
    | none => exact ih

/-- C7 (amended): the paginated fetch is dispatched as a detached unit whose
execution performs the one `getSubs` call and posts exactly one completion
message, and no message other than a key press makes the update step touch
the network; but on the execute binding the per-subscription delete calls
run synchronously inside the update step itself, and only their outcome —
the error closure or the refresh fetch — is dispatched as the detached unit,
which again posts exactly one completion message. -/
theorem async_dispatch_amended (del : String → String → Option goError)
    (m : model) (k : String) (subs : List sub)
    (hx : keyMatches k km.Exec = true) (hq : keyMatches k km.Quit = false)
    (hsubs : (selectedRows m.table).mapM rowSub = some subs) :
    updateSyncCalls del (.keyMsg k) m = unwatchCalls del subs ∧
    update del (.keyMsg k) m = some ({ m with state := .stateUnwatching }, unwatch del subs) ∧
    cmdDeleteCalls (unwatch del subs) = 0 ∧
    (∀ l e, (cmdMsgs (.ret l e) (unwatch del subs)).length = 1) ∧
    (∀ msg : Msg, (∀ k', msg ≠ .keyMsg k') → updateSyncCalls del msg m = []) ∧
    ∀ l e, (cmdMsgs (.ret l e) .loadSubs).length = 1 := by
  have hsubs' : List.mapM.loop rowSub (selectedRows m.table) [] = some subs := hsubs
  refine ⟨?_, ?_, rfl, ?_, ?_, fun l e => rfl⟩
  · simp [updateSyncCalls, hx, hq, hsubs']
  · simp [update, hx, hq, hsubs']
  · intro l e
    rcases unwatch_cases del subs with ⟨e', he⟩ | he <;> rw [he] <;> rfl
  · intro msg hmsg
    cases msg with
    | keyMsg k' => exact absurd rfl (hmsg k')
    | errMsg e => rfl
    | resizeMsg w h => rfl
    | spinTickMsg => rfl
    | subsLoadedMsg subs err => rfl

/-- Witness for C7's amended statement on the marked one-row state: the
update step's synchronous trace is the delete-call trace and the dispatched
command performs no deletions and posts one message. -/
theorem async_dispatch_amended_witness :
    updateSyncCalls (fun _ _ => none) (.keyMsg "x") loadedModel =
      unwatchCalls (fun _ _ => none) [⟨"acme", "widgets"⟩] ∧
    cmdDeleteCalls (unwatch (fun _ _ => none) [⟨"acme", "widgets"⟩]) = 0 := by
  have h := async_dispatch_amended (fun _ _ => none) loadedModel "x" [⟨"acme", "widgets"⟩]
    (by decide) (by decide) (by decide)
  exact ⟨h.1, h.2.2.1⟩

/- ## C9: totality of the subscription building -/

/-- Well-formedness of a repository record: owner present, owner login
present, name present (the three pointers `getSubs` dereferences). -/
def wfRepo (r : repoRec) : Bool :=
  (r.owner.bind userRec.login).isSome && r.name.isSome

lemma mkSub_isSome_of_wf (r : repoRec) (h : wfRepo r = true) : (mkSub r).isSome := by
  obtain ⟨ow, nm⟩ := r
  cases ow with
  | none => simp [wfRepo] at h
  | some u =>
    obtain ⟨lg⟩ := u
    cases lg with
    | none => simp [wfRepo] at h
    | some login =>
      cases nm with
      | none => simp [wfRepo] at h
      | some name => rfl

lemma buildSubs_isSome (rs : List repoRec) (h : ∀ r ∈ rs, wfRepo r = true) :
    (buildSubs rs).isSome := by
  induction rs with
  | nil => rfl
  | cons a l ih =>
    have ha := mkSub_isSome_of_wf a (h a (by simp))
    have hl := ih (fun r hr => h r (by simp [hr]))
    obtain ⟨sa, hsa⟩ := Option.isSome_iff_exists.mp ha
    obtain ⟨sl, hsl⟩ := Option.isSome_iff_exists.mp hl
    have hb : buildSubs (a :: l) = some (sa :: sl) := by
      rw [buildSubs] at hsl
      rw [buildSubs, List.mapM_cons, hsa, hsl]
      rfl
    rw [hb]
    rfl

/-- C9: when every page the client returns carries only records with a
present owner login and a present name, the subscription building in
`getSubs` is total — no run of the pagination loop, and no `getSubs` run,
reaches the nil-pointer panic of the unguarded dereferences
`*r.Owner.Login` / `*r.Name`. -/
theorem getSubs_never_panics (c : Nat → Nat → PageResult)
    (hwf : ∀ p pg, c p 100 = .ok pg → ∀ r ∈ pg.repos, wfRepo r = true) :
    (∀ fuel pageArg acc, getSubsLoop c fuel pageArg acc ≠ .panicked) ∧
    ∀ fuel, getSubs c fuel ≠ .panicked := by
  have hloop : ∀ fuel pageArg acc, getSubsLoop c fuel pageArg acc ≠ .panicked := by
    intro fuel
    induction fuel with
    | zero => intro pageArg acc h; simp [getSubsLoop] at h
    | succ n ih =>
      intro pageArg acc h
      rw [getSubsLoop] at h
      split at h
      · simp at h
      · rename_i pg hc
        split at h
        · rename_i hb
          have hs := buildSubs_isSome pg.repos (hwf pageArg pg hc)
          rw [hb] at hs
          simp at hs
        · split at h
          · simp at h
          · exact ih _ _ h
  refine ⟨hloop, ?_⟩
  intro fuel h
  unfold getSubs at h
  cases hl : getSubsLoop c fuel 0 [] with
  | ret subs err =>
    rw [hl] at h
    cases err with
    | none => simp at h
    | some e => simp at h
  | panicked => exact hloop fuel 0 [] hl
  | diverged => rw [hl] at h; simp at h

/-- Witness for C9: the concrete two-page client `cW` serves only
well-formed records, so its fetch cannot panic. -/
theorem getSubs_never_panics_witness : getSubs cW 3 ≠ .panicked := by
  have hwf : ∀ p pg, cW p 100 = .ok pg → ∀ r ∈ pg.repos, wfRepo r = true := by
    intro p pg h
    unfold cW at h
    by_cases h0 : p = 0
    · rw [if_pos h0] at h
      injection h with h
      subst h
      exact (by decide : ∀ r ∈ pageA.repos, wfRepo r = true)
    · rw [if_neg h0] at h
      by_cases h2 : p = 2
      · rw [if_pos h2] at h
        injection h with h
        subst h
        exact (by decide : ∀ r ∈ pageB.repos, wfRepo r = true)
      · rw [if_neg h2] at h
        exact Except.noConfusion h
  exact (getSubs_never_panics cW hwf).2 3

/- ## C10: rows always carry their subscription -/

/-- The row-data invariant: a row's data map is exactly what `mkRow` builds
for some subscription. -/
def rowWF (r : Row) : Prop := ∃ s : sub, r.data = (mkRow s).data

lemma toggleAt_data {rows : List Row} {i : Nat} {r : Row} (h : r ∈ toggleAt rows i) :
    ∃ r₀ ∈ rows, r.data = r₀.data := by
  unfold toggleAt at h
  split at h
  · exact ⟨r, h, rfl⟩
  · rename_i r₁ hr₁
    rcases List.mem_or_eq_of_mem_set h with h' | h'
    · exact ⟨r, h', rfl⟩
    · subst h'
      exact ⟨r₁, List.get?_mem hr₁, rfl⟩

lemma tableUpdate_rows (msg : Msg) (t : TableState) :
    ∀ r ∈ (tableUpdate msg t).rows, ∃ r₀ ∈ t.rows, r.data = r₀.data := by
  intro r hr
  cases msg with
  | keyMsg k =>
    rw [show tableUpdate (.keyMsg k) t =
        (if (!t.focused) = true then t
         else if keyMatches k km.Mark = true then { t with rows := toggleAt t.rows t.cursor }
         else if k = "down" then { t with cursor := min (t.cursor + 1) (t.rows.length - 1) }
         else if k = "up" then { t with cursor := t.cursor - 1 }
         else t) from rfl] at hr
    by_cases hf : (!t.focused) = true
    · rw [if_pos hf] at hr
      exact ⟨r, hr, rfl⟩
    · rw [if_neg hf] at hr
      by_cases hm' : keyMatches k km.Mark = true
      · rw [if_pos hm'] at hr
        exact toggleAt_data hr
      · rw [if_neg hm'] at hr
        by_cases hd : k = "down"
        · rw [if_pos hd] at hr
          exact ⟨r, hr, rfl⟩
        · rw [if_neg hd] at hr
          by_cases hu : k = "up"
          · rw [if_pos hu] at hr
            exact ⟨r, hr, rfl⟩
          · rw [if_neg hu] at hr
            exact ⟨r, hr, rfl⟩
  | errMsg e => exact ⟨r, hr, rfl⟩
  | resizeMsg w h => exact ⟨r, hr, rfl⟩
  | spinTickMsg => exact ⟨r, hr, rfl⟩
  | subsLoadedMsg subs err => exact ⟨r, hr, rfl⟩

lemma update_preserves_rowWF (del : String → String → Option goError) (msg : Msg)
    (m m' : model) (c : Cmd)
    (h : update del msg m = some (m', c))
    (hm : ∀ r ∈ m.table.rows, rowWF r) :
    ∀ r ∈ m'.table.rows, rowWF r := by
  intro r hr
  cases msg with
  | errMsg e =>
    rw [show update del (.errMsg e) m =
        some ({ m with err := some e, state := .stateError }, .cnone) from rfl] at h
    injection h with h
    injection h with h₁ h₂
    rw [← h₁] at hr
    exact hm r hr
  | spinTickMsg =>
    rw [show update del .spinTickMsg m =
        some ({ m with spinner := m.spinner + 1 }, .spinTick) from rfl] at h
    injection h with h
    injection h with h₁ h₂
    rw [← h₁] at hr
    exact hm r hr
  | resizeMsg w hgt =>
    rw [show update del (.resizeMsg w hgt) m =
        some ({ m with table := { m.table with targetWidth := w, pageSize := (hgt : Int) - 6 - 1 } }, .cnone)
      from rfl] at h
    injection h with h
    injection h with h₁ h₂
    rw [← h₁] at hr
    exact hm r hr
  | subsLoadedMsg subs err =>
    cases err with
    | some e =>
      rw [show update del (.subsLoadedMsg subs (some e)) m =
          some ({ m with state := .stateError }, .cnone) from rfl] at h
      injection h with h
      injection h with h₁ h₂
      rw [← h₁] at hr
      exact hm r hr
    | none =>
      rw [show update del (.subsLoadedMsg subs none) m =
          some ({ m with table := { m.table with rows := subs.map mkRow, focused := true }, state := .stateLoaded }, .cnone)
        from rfl] at h
      injection h with h
      injection h with h₁ h₂
      rw [← h₁] at hr
      obtain ⟨s, hs, rfl⟩ := List.mem_map.mp hr
      exact ⟨s, rfl⟩
  | keyMsg k =>
    by_cases hq : keyMatches k km.Quit = true
    · rw [show update del (.keyMsg k) m = some (m, .quit) from by simp [update, hq]] at h
      injection h with h
      injection h with h₁ h₂
      rw [← h₁] at hr
      exact hm r hr
    · have hq' : keyMatches k km.Quit = false := by simpa using hq
      by_cases hx : keyMatches k km.Exec = true
      · cases hms : (selectedRows m.table).mapM rowSub with
        | none =>
          have hms' : List.mapM.loop rowSub (selectedRows m.table) [] = none := hms
          rw [show update del (.keyMsg k) m = none from by simp [update, hq', hx, hms']] at h
          exact absurd h (by simp)
        | some subs =>
          have hms' : List.mapM.loop rowSub (selectedRows m.table) [] = some subs := hms
          rw [show update del (.keyMsg k) m =
              some ({ m with state := .stateUnwatching }, unwatch del subs) from by
            simp [update, hq', hx, hms']] at h
          injection h with h
          injection h with h₁ h₂
          rw [← h₁] at hr
          exact hm r hr
      · have hx' : keyMatches k km.Exec = false := by simpa using hx
        rw [show update del (.keyMsg k) m =
            some ({ m with table := tableUpdate (.keyMsg k) m.table }, .cnone) from by
          simp [update, hq', hx']] at h
        injection h with h
        injection h with h₁ h₂
        rw [← h₁] at hr
        obtain ⟨r₀, hr₀, hdata⟩ := tableUpdate_rows (.keyMsg k) m.table r hr
        obtain ⟨s, hs⟩ := hm r₀ hr₀
        exact ⟨s, by rw [hdata, hs]⟩

lemma reachable_rowWF (m : model) (hm : Reachable m) : ∀ r ∈ m.table.rows, rowWF r := by
  induction hm with
  | init => intro r hr; simp [initModel, initTable] at hr
  | step del msg m₀ m₁ c hre hstep ih => exact update_preserves_rowWF del msg m₀ m₁ c hstep ih

lemma mapM_rowSub (rs : List Row) (h : ∀ r ∈ rs, rowWF r) :
    ∃ subs : List sub, rs.mapM rowSub = some subs ∧
      subs.map (fun s => (some (cellValue.vStr s.org), some (cellValue.vStr s.repo))) =
        rs.map (fun r => (List.lookup colOrg r.data, List.lookup colRepo r.data)) := by
  induction rs with
  | nil => exact ⟨[], rfl, rfl⟩
  | cons a l ih =>
    obtain ⟨s, hs⟩ := h a (by simp)
    obtain ⟨subs, hsubs, hmap⟩ := ih (fun r hr => h r (by simp [hr]))
    have ha : rowSub a = some s := by
      unfold rowSub
      rw [hs]
      rfl
    refine ⟨s :: subs, ?_, ?_⟩
    · rw [List.mapM_cons, ha, hsubs]
      rfl
    · simp only [List.map_cons]
      rw [hmap, hs]
      rfl

/-- C10: in every reachable session state, each table row's hidden `sub`
cell holds a subscription whose organization and repository equal the
row's displayed organization and repository cells (the row data is exactly
what `mkRow` builds); consequently the Exec branch's per-row extraction over
the marked rows is total, and the deletion targets are exactly the displayed
(organization, repository) pairs of the marked rows, in order. -/
theorem rows_carry_their_sub (m : model) (hm : Reachable m) :
    (∀ r ∈ m.table.rows, ∃ s : sub,
      List.lookup colSub r.data = some (.vSub s) ∧
      List.lookup colOrg r.data = some (.vStr s.org) ∧
      List.lookup colRepo r.data = some (.vStr s.repo)) ∧
    ∃ subs : List sub, (selectedRows m.table).mapM rowSub = some subs ∧
      subs.map (fun s => (some (cellValue.vStr s.org), some (cellValue.vStr s.repo))) =
        (selectedRows m.table).map
          (fun r => (List.lookup colOrg r.data, List.lookup colRepo r.data)) := by
  have hwf := reachable_rowWF m hm
  constructor
  · intro r hr
    obtain ⟨s, hs⟩ := hwf r hr
    exact ⟨s, by rw [hs]; rfl, by rw [hs]; rfl, by rw [hs]; rfl⟩
  · exact mapM_rowSub _ (fun r hr => hwf r (List.mem_filter.mp hr).1)

/-- Witness for C10 on the reachable state with one marked acme/widgets
row (initial model, successful load, one toggle). -/
theorem rows_carry_their_sub_witness :
    (∀ r ∈ loadedModel.table.rows, ∃ s : sub,
      List.lookup colSub r.data = some (.vSub s) ∧
      List.lookup colOrg r.data = some (.vStr s.org) ∧
      List.lookup colRepo r.data = some (.vStr s.repo)) ∧
    ∃ subs : List sub, (selectedRows loadedModel.table).mapM rowSub = some subs ∧
      subs.map (fun s => (some (cellValue.vStr s.org), some (cellValue.vStr s.repo))) =
        (selectedRows loadedModel.table).map
          (fun r => (List.lookup colOrg r.data, List.lookup colRepo r.data)) :=
  rows_carry_their_sub loadedModel
    (Reachable.step (fun _ _ => none) (.keyMsg " ") loadedModel0 loadedModel .cnone
      (Reachable.step (fun _ _ => none) (.subsLoadedMsg [⟨"acme", "widgets"⟩] none)
        initModel loadedModel0 .cnone Reachable.init (by decide))
      (by decide))
